import Mathlib

/-!
Shallow embedding of the multi-level affiliate commission engine of
`src/index.js` (Express + Firestore backend).  Monetary values are modelled
as exact rationals (`ℚ`), JavaScript `Math.round` as floor of `x + 1/2`,
Firestore timestamps as natural numbers (milliseconds), and the Firestore
collections as in-memory association lists inside a `DB` record.  The
`/bundle/sales` handler is embedded as a pure function from a database
state, a current time, a fresh document id and a request to a new database
state and a response; its writes are additionally exposed as a list of
atomic units (`bundleSalesPlan`) so that partial-failure states of the
non-transactional parts can be reasoned about.
-/

/-- Environment constant `FX_PEN_TO_USD` (default "0.27" in the source). -/
def FX_PEN_TO_USD : ℚ := 27 / 100

/-- Environment constant `REFUND_HOLD_DAYS` (default "14" in the source). -/
def REFUND_HOLD_DAYS : Nat := 14

/-- Source `planOrder = ["basic", "pro", "elite"]`. -/
def planOrder : List String := ["basic", "pro", "elite"]

/-- Source `commissionByLevel = {1: 50, 2: 20, 3: 10, 4: 5}`, read in the
handler as `commissionByLevel[upline.level] || 0`. -/
def commissionByLevel : Nat → Nat
  | 1 => 50
  | 2 => 20
  | 3 => 10
  | 4 => 5
  | _ => 0

/-- Source `planLevelCap`: elite can receive 4 levels, pro 2, anything else 1. -/
def planLevelCap (plan : String) : Nat :=
  if plan = "elite" then 4
  else if plan = "pro" then 2
  else 1

/-- JavaScript `Math.round`: round half toward positive infinity,
so `Math.round x = Float.floor (x + 0.5)`. -/
def jsRound (x : ℚ) : ℤ := ⌊x + 1 / 2⌋

/-- Source `round2 = (value) => Math.round(Number(value) * 100) / 100`. -/
def round2 (value : ℚ) : ℚ := (jsRound (value * 100) : ℚ) / 100

/-- Source `penToUsd = (penValue) => round2(Number(penValue || 0) * FX_PEN_TO_USD)`. -/
def penToUsd (penValue : ℚ) : ℚ := round2 (penValue * FX_PEN_TO_USD)

/-- Source `holdUntilDate = () => Timestamp.fromDate(new Date(Date.now() +
REFUND_HOLD_DAYS * 24 * 60 * 60 * 1000))`, with `Date.now()` passed
explicitly as `now` (milliseconds). -/
def holdUntilDate (now : Nat) : Nat := now + REFUND_HOLD_DAYS * 24 * 60 * 60 * 1000

/-- Source `formatUsd = (value) => "$ " + Number(value || 0).toFixed(2)`;
digit rendering of the two-decimal fixed-point form (the model is only ever
applied to the literal 0, where rounding-mode subtleties of `toFixed` do
not arise). -/
def formatUsd (value : ℚ) : String :=
  let cents : ℤ := jsRound (value * 100)
  "$ " ++ toString (cents / 100) ++ "." ++
    (if cents % 100 < 10 then "0" else "") ++ toString (cents % 100)

/-- JavaScript falsy-or on an optional string field: `a || b` yields `b`
when `a` is `undefined`/`null` or the empty string. -/
def orElseStr (a : Option String) (b : String) : String :=
  match a with
  | some s => if s = "" then b else s
  | none => b

/-- Source `resolvePlanLabel`: "Elite" / "Pro" / "Basico". The argument is
optional because user documents may lack a `plan` field. -/
def resolvePlanLabel (plan : Option String) : String :=
  if plan = some "elite" then "Elite"
  else if plan = some "pro" then "Pro"
  else "Basico"

/-- Alphabet of `generateReferralCode`: 32 characters, visually ambiguous
ones (0, 1, I, O) excluded. -/
def referralAlphabet : List Char := "ABCDEFGHJKLMNPQRSTUVWXYZ23456789".data

/-- Source `generateReferralCode`: six random draws from the alphabet,
prefixed with "AF-".  The six `Math.floor(Math.random() * alphabet.length)`
draws are passed explicitly as a list of indices. -/
def generateReferralCode (draws : List (Fin referralAlphabet.length)) : String :=
  "AF-" ++ String.mk (draws.map (fun i => referralAlphabet.get i))

/-- One character of the `[A-Z0-9]` class of the validation regex. -/
def isCodeChar (c : Char) : Bool :=
  (decide ('A' ≤ c) && decide (c ≤ 'Z')) || (decide ('0' ≤ c) && decide (c ≤ '9'))

/-- Source `isValidReferralCode = (code) => /^AF-[A-Z0-9]{4,}$/.test(code)`. -/
def isValidReferralCode (code : String) : Bool :=
  match code.data with
  | 'A' :: 'F' :: '-' :: rest => decide (4 ≤ rest.length) && rest.all isCodeChar
  | _ => false

/-- JavaScript `String.prototype.toUpperCase` restricted to the ASCII
codes appearing in referral codes. -/
def toUpperCase (s : String) : String := String.mk (s.data.map Char.toUpper)

/-- A document of the `users` collection.  Every field the commission
engine reads is present; fields may be absent (`none`) as in a schemaless
document store. -/
structure User where
  uid : Option String := none
  email : Option String := none
  fullName : Option String := none
  plan : Option String := none
  referralCode : Option String := none
  referredBy : Option String := none
  disabled : Bool := false
deriving DecidableEq

/-- A document of the `bundleSales` collection, as written by the
`/bundle/sales` handler. -/
structure Sale where
  buyerEmail : String
  amountPen : ℚ
  amountUsd : ℚ
  referralCode : Option String
  referrerId : Option String
  status : String
  source : String
  createdAt : Nat
  holdUntil : Nat
deriving DecidableEq

/-- A document of the `commissions` collection. -/
structure Commission where
  transactionId : String
  beneficiaryId : String
  level : Nat
  percent : Nat
  amountUsd : ℚ
  status : String
  holdUntil : Nat
  createdAt : Nat
  updatedAt : Nat
  releasedAt : Option Nat := none
deriving DecidableEq

/-- A document of the `stats` collection (one balance record per
participant).  Numeric fields default to 0, matching Firestore increments
on a missing document or field. -/
structure Stats where
  totalEarningsUsd : ℚ := 0
  pendingBalanceUsd : ℚ := 0
  availableBalanceUsd : ℚ := 0
  plan : Option String := none
  networkTotal : Nat := 0
deriving DecidableEq

/-- An entry of a user's `activity` subcollection. -/
structure Activity where
  name : String
  action : String
  level : String
  time : String
  createdAt : Nat
deriving DecidableEq

/-- The Firestore state visible to the commission engine: each collection
as an association list keyed by document id (activity entries keyed by the
owning user). -/
structure DB where
  users : List (String × User)
  sales : List (String × Sale)
  commissions : List Commission
  stats : List (String × Stats)
  activity : List (String × Activity)
deriving DecidableEq

/-- Source `findUserByReferral`: first user document whose `referralCode`
equals the given code. -/
def findUserByReferral (users : List (String × User)) (referralCode : String) :
    Option (String × User) :=
  users.find? (fun p => p.2.referralCode == some referralCode)

/-- Balance record of a participant, with Firestore's missing-document
semantics (all numeric fields read as 0). -/
def getStats (db : DB) (uid : String) : Stats :=
  (db.stats.lookup uid).getD {}

/-- Set-with-merge of a stats document: updates the stored record in
place, or creates one from the all-zero default when missing (Firestore
`FieldValue.increment` on a missing document starts from 0). -/
def setStats (l : List (String × Stats)) (uid : String) (f : Stats → Stats) :
    List (String × Stats) :=
  match l with
  | [] => [(uid, f {})]
  | (k, s) :: rest =>
      if k = uid then (k, f s) :: rest else (k, s) :: setStats rest uid f

/-- Source `ensureStats`: create the all-zero stats record for a user if
none exists yet. -/
def ensureStats (db : DB) (uid : String) (planId : String) : DB :=
  match db.stats.lookup uid with
  | some _ => db
  | none => { db with stats := db.stats ++ [(uid, { plan := some planId })] }

/-- Predicate of the Firestore query in `refreshPendingCommissions`:
`beneficiaryId == uid`, `status == "pending"`, `holdUntil <= now`. -/
def isDueCommission (uid : String) (now : Nat) (c : Commission) : Bool :=
  c.beneficiaryId == uid && c.status == "pending" && decide (c.holdUntil ≤ now)

/-- Source `refreshPendingCommissions`: release every due pending
commission of `uid` (flip to "approved" and stamp `releasedAt`), and move
the released total from the pending to the available balance, all in one
batch; a no-op when nothing is due. -/
def refreshPendingCommissions (db : DB) (uid : String) (now : Nat) : DB :=
  let dueList := db.commissions.filter (isDueCommission uid now)
  if dueList.isEmpty then db
  else
    let releasedTotal : ℚ := (dueList.map (fun c => c.amountUsd)).sum
    { db with
      commissions := db.commissions.map (fun c =>
        if isDueCommission uid now c then
          { c with status := "approved", releasedAt := some now, updatedAt := now }
        else c),
      stats := setStats db.stats uid (fun s =>
        { s with
          pendingBalanceUsd := s.pendingBalanceUsd - releasedTotal,
          availableBalanceUsd := s.availableBalanceUsd + releasedTotal }) }

/-- Ten-element slices of a list, structurally recursive on a fuel bound
so that it evaluates by kernel reduction; the fuel is always the list
length, which dominates the number of slices. -/
def chunksOf10Go : Nat → List String → List (List String)
  | _, [] => []
  | 0, _ :: _ => []
  | fuel + 1, x :: xs => (x :: xs.take 9) :: chunksOf10Go fuel (xs.drop 9)

/-- Ten-element slices of a list, for the chunked Firestore `in` queries
of `fetchUsersByReferrers` (`for (let i = 0; i < ids.length; i += 10)`). -/
def chunksOf10 (l : List String) : List (List String) := chunksOf10Go l.length l

/-- Source `fetchUsersByReferrers`: all user documents whose `referredBy`
is in the given id set, fetched in sequentially unioned chunks of 10. -/
def fetchUsersByReferrers (users : List (String × User)) (referrerIds : List String) :
    List (String × User) :=
  (chunksOf10 referrerIds).flatMap (fun chunk =>
    users.filter (fun p =>
      match p.2.referredBy with
      | some r => chunk.contains r
      | none => false))

/-- One row of the downline view built by `buildDownline`. -/
structure Member where
  id : String
  name : String
  plan : String
  level : Nat
  earnings : String
deriving DecidableEq

/-- Member row for a user document found at a given level. -/
def toMember (level : Nat) (p : String × User) : Member :=
  { id := orElseStr p.2.uid p.1,
    name := orElseStr p.2.fullName (orElseStr p.2.email "Sin nombre"),
    plan := resolvePlanLabel p.2.plan,
    level := level,
    earnings := formatUsd 0 }

/-- Loop body of `buildDownline`: the `while (currentLevel <= maxLevels &&
currentIds.length)` loop, with the remaining number of levels as the
structural bound (`remaining = maxLevels - currentLevel + 1`). -/
def buildDownlineLoop (users : List (String × User)) :
    Nat → Nat → List String → List Member × List (Nat × Nat)
  | _, 0, _ => ([], [])
  | level, remaining + 1, currentIds =>
    if currentIds.isEmpty then ([], [])
    else
      let levelUsers := fetchUsersByReferrers users currentIds
      let rest := buildDownlineLoop users (level + 1) remaining
        (levelUsers.map (fun p => orElseStr p.2.uid p.1))
      (levelUsers.map (toMember level) ++ rest.1,
       (level, levelUsers.length) :: rest.2)

/-- Source `buildDownline(rootUid, maxLevels = 4)`: breadth-first expansion
of the `referredBy` relation, returning the flat member list and the
per-level count map (as an association list in level order). -/
def buildDownline (users : List (String × User)) (rootUid : String)
    (maxLevels : Nat := 4) : List Member × List (Nat × Nat) :=
  buildDownlineLoop users 1 maxLevels [rootUid]

/-- One entry of the upline chain of the `/bundle/sales` handler:
`{ level, ...currentRef }` where `currentRef = { id: doc.id, ...doc.data() }`. -/
structure ChainEntry where
  level : Nat
  id : String
  user : User
deriving DecidableEq

/-- The upline-walk loop of the `/bundle/sales` handler: push the current
referrer at the current level, stop on a missing `referredBy` link or a
missing referrer document, and never walk past level 4 (`fuel = 4 - level + 1`). -/
def walkUpline (users : List (String × User)) :
    Nat → Nat → String × User → List ChainEntry
  | 0, _, _ => []
  | fuel + 1, level, cur =>
    { level := level, id := cur.1, user := cur.2 } ::
      (match cur.2.referredBy with
       | none => []
       | some nextId =>
         match users.lookup nextId with
         | none => []
         | some u => walkUpline users fuel (level + 1) (nextId, u))

/-- The `uplineChain` array built by the `/bundle/sales` handler, starting
from the resolved referrer at level 1 with at most 4 hops. -/
def uplineChain (users : List (String × User)) (referrer : String × User) :
    List ChainEntry :=
  walkUpline users 4 1 referrer

/-- One staged credit of the distribution loop: the data shared by the
commission document and the stats increment staged for a kept beneficiary. -/
structure CreditLine where
  beneficiaryId : String
  level : Nat
  percent : Nat
  amountUsd : ℚ
deriving DecidableEq

/-- The per-beneficiary distribution loop of the `/bundle/sales` handler:
skip a chain entry whose level exceeds its own plan's cap
(`planLevelCap(upline.plan || "basic")`) or whose percentage is zero;
otherwise stage `round2(amountUsd * percent / 100)` for it. -/
def distribute (amountUsd : ℚ) (chain : List ChainEntry) : List CreditLine :=
  chain.filterMap (fun e =>
    let allowedLevels := planLevelCap (orElseStr e.user.plan "basic")
    if allowedLevels < e.level then none
    else
      let percent := commissionByLevel e.level
      if percent = 0 then none
      else some
        { beneficiaryId := e.id,
          level := e.level,
          percent := percent,
          amountUsd := round2 (amountUsd * (percent : ℚ) / 100) })

/-- A single Firestore write staged by the `/bundle/sales` handler. -/
inductive WriteOp where
  | putSale (saleId : String) (sale : Sale)
  | putCommission (c : Commission)
  | credit (uid : String) (amount : ℚ)
  | putActivity (uid : String) (a : Activity)
deriving DecidableEq

/-- Effect of one staged write on the database state.  `credit` is the
atomic-increment pair `totalEarningsUsd += amount, pendingBalanceUsd +=
amount` staged for a beneficiary. -/
def applyOp (db : DB) (op : WriteOp) : DB :=
  match op with
  | .putSale saleId sale => { db with sales := (saleId, sale) :: db.sales }
  | .putCommission c => { db with commissions := db.commissions ++ [c] }
  | .credit uid amount =>
      { db with stats := setStats db.stats uid (fun s =>
          { s with
            totalEarningsUsd := s.totalEarningsUsd + amount,
            pendingBalanceUsd := s.pendingBalanceUsd + amount }) }
  | .putActivity uid a => { db with activity := db.activity ++ [(uid, a)] }

/-- Sequential application of a list of staged writes. -/
def applyOps (db : DB) (ops : List WriteOp) : DB := ops.foldl applyOp db

/-- The content of the `db.batch()` of the `/bundle/sales` handler: for
each staged credit a commission document and a stats increment, plus one
activity note for the direct referrer. -/
def batchOps (saleId buyerEmail : String) (holdUntil now : Nat) (amountUsd : ℚ)
    (chain : List ChainEntry) (referrerId : String) : List WriteOp :=
  (distribute amountUsd chain).flatMap (fun cr =>
    [WriteOp.putCommission
      { transactionId := saleId,
        beneficiaryId := cr.beneficiaryId,
        level := cr.level,
        percent := cr.percent,
        amountUsd := cr.amountUsd,
        status := "pending",
        holdUntil := holdUntil,
        createdAt := now,
        updatedAt := now },
     WriteOp.credit cr.beneficiaryId cr.amountUsd]) ++
  [WriteOp.putActivity referrerId
    { name := buyerEmail,
      action := "compro el bundle",
      level := "Venta",
      time := "Reciente",
      createdAt := now }]

/-- Body of a POST `/bundle/sales` request, after JSON parsing. -/
structure SaleReq where
  externalId : Option String
  buyerEmail : String
  amountPen : ℚ
  referralCode : Option String
  source : Option String
deriving DecidableEq

/-- JSON response of the `/bundle/sales` handler. -/
structure SalesResp where
  ok : Bool
  saleId : Option String
  status : Option String
  errorMsg : Option String
deriving DecidableEq

/-- Success response `{ ok: true, saleId, status }`. -/
def salesOk (saleId status : String) : SalesResp :=
  { ok := true, saleId := some saleId, status := some status, errorMsg := none }

/-- Error response `{ error: msg }`. -/
def salesErr (msg : String) : SalesResp :=
  { ok := false, saleId := none, status := none, errorMsg := some msg }

/-- Necessary well-formedness condition of zod's `.email()` check; the full
third-party e-mail grammar is out of scope and abstracted to the presence
of an at sign, which is all the commission engine depends on. -/
def looksLikeEmail (s : String) : Bool := s.data.contains '@'

/-- The zod request schema of the `/bundle/sales` handler: `externalId`
optional with at least 3 characters, `buyerEmail` an e-mail, `amountPen` a
positive number, `referralCode` optional with at least 3 characters. -/
def validSaleReq (req : SaleReq) : Bool :=
  (match req.externalId with
   | some e => decide (3 ≤ e.length)
   | none => true) &&
  looksLikeEmail req.buyerEmail &&
  decide (0 < req.amountPen) &&
  (match req.referralCode with
   | some c => decide (3 ≤ c.length)
   | none => true)

/-- Referrer resolution of the `/bundle/sales` handler: only a present,
syntactically valid code is looked up (uppercased) in the user directory. -/
def resolveReferrer (users : List (String × User)) (referralCode : Option String) :
    Option (String × User) :=
  match referralCode with
  | some code =>
      if isValidReferralCode code then findUserByReferral users (toUpperCase code)
      else none
  | none => none

/-- The sale document written by `saleRef.set` in the `/bundle/sales`
handler: converted amount, resolved referrer id (or null), terminal status
"paid", and the hold deadline `now + REFUND_HOLD_DAYS` days. -/
def mkSale (req : SaleReq) (now : Nat) (referrerId : Option String) : Sale :=
  { buyerEmail := req.buyerEmail,
    amountPen := req.amountPen,
    amountUsd := penToUsd req.amountPen,
    referralCode := req.referralCode,
    referrerId := referrerId,
    status := "paid",
    source := (req.source).getD "manual",
    createdAt := now,
    holdUntil := holdUntilDate now }

/-- The `/bundle/sales` handler as a plan: the list of atomic write units
it performs in order (each inner list is one atomic Firestore operation:
first the single `saleRef.set`, then — when a referrer resolved — the one
`batch.commit`) together with the JSON response.  `now` stands for
`Date.now()`, `freshId` for the generated id used when `externalId` is
absent. -/
def bundleSalesPlan (db : DB) (now : Nat) (freshId : String) (req : SaleReq) :
    List (List WriteOp) × SalesResp :=
  if validSaleReq req then
    let saleId := (req.externalId).getD freshId
    match db.sales.lookup saleId with
    | some _ => ([], salesOk saleId "exists")
    | none =>
      let referrer := resolveReferrer db.users req.referralCode
      let sale := mkSale req now (referrer.map (fun r => r.1))
      match referrer with
      | none => ([[WriteOp.putSale saleId sale]], salesOk saleId "no-referrer")
      | some r =>
        ([[WriteOp.putSale saleId sale],
          batchOps saleId req.buyerEmail (holdUntilDate now) now (penToUsd req.amountPen)
            (uplineChain db.users r) r.1],
         salesOk saleId "recorded")
  else ([], salesErr "Invalid payload")

/-- The `/bundle/sales` handler run to completion: all staged writes
applied in order, paired with the response. -/
def bundleSales (db : DB) (now : Nat) (freshId : String) (req : SaleReq) :
    DB × SalesResp :=
  ((bundleSalesPlan db now freshId req).1.flatten.foldl applyOp db,
   (bundleSalesPlan db now freshId req).2)

/-- A database state reachable while the `/bundle/sales` handler executes:
some prefix of its atomic write units has been applied (an atomic unit
applies in full or not at all). -/
def ReachableState (db : DB) (now : Nat) (freshId : String) (req : SaleReq)
    (st : DB) : Prop :=
  ∃ k, st = applyOps db (((bundleSalesPlan db now freshId req).1.take k).flatten)

/-- Balance invariant of a stats record: lifetime earnings split exactly
into pending and available. -/
def statsInv (s : Stats) : Prop :=
  s.totalEarningsUsd = s.pendingBalanceUsd + s.availableBalanceUsd

/-- Balance invariant over the whole database. -/
def dbStatsInv (db : DB) : Prop := ∀ uid, statsInv (getStats db uid)

/-! ## Fixtures used by concrete witnesses and counterexamples -/

/-- Basic-tier participant B, referred by P (spec scenario A). -/
def userB : User :=
  { uid := some "B", plan := some "basic", referralCode := some "AF-BBBBBB",
    referredBy := some "P" }

/-- Pro-tier participant P, referred by E (spec scenario A). -/
def userP : User :=
  { uid := some "P", plan := some "pro", referralCode := some "AF-PPPPPP",
    referredBy := some "E" }

/-- Elite-tier participant E, root of the referral chain (spec scenario A). -/
def userE : User :=
  { uid := some "E", plan := some "elite", referralCode := some "AF-EEEEEE" }

/-- Database fixture: the three-user chain B → P → E, no sales yet. -/
def db0 : DB :=
  { users := [("B", userB), ("P", userP), ("E", userE)],
    sales := [], commissions := [], stats := [], activity := [] }

/-- Sale request fixture: external id "sale-1", 100 PEN, attributed to B's code. -/
def req0 : SaleReq :=
  { externalId := some "sale-1", buyerEmail := "x@y.com", amountPen := 100,
    referralCode := some "AF-BBBBBB", source := none }

/-! ## C6: scenario A amounts -/

/-- The distribution the handler actually computes for a 100-unit sale
attributed to the code of B: the code owner B is the resolved referrer at
level 1, so B (Basic, cap 1), P (Pro, cap 2) and E (Elite, cap 4) are all
credited at levels 1, 2, 3. -/
lemma scenarioA_actual :
    distribute 100 (uplineChain db0.users ("B", userB)) =
      [{ beneficiaryId := "B", level := 1, percent := 50, amountUsd := 50 },
       { beneficiaryId := "P", level := 2, percent := 20, amountUsd := 20 },
       { beneficiaryId := "E", level := 3, percent := 10, amountUsd := 10 }] := by
  have hch : uplineChain db0.users ("B", userB) =
      [⟨1, "B", userB⟩, ⟨2, "P", userP⟩, ⟨3, "E", userE⟩] := by decide
  rw [hch]
  simp only [distribute, userB, userP, userE, List.filterMap_cons, List.filterMap_nil]
  norm_num [planLevelCap, commissionByLevel, orElseStr, round2, jsRound]
  decide

/-- Counterexample to claim C6 as stated: for a 100-unit sale attributed
to the code of B the handler resolves the owner B of that code as the referrer, and
the distribution loop puts B at chain level 1, P at level 2 and E at
level 3 — three commissions of 50, 20 and 10 (total 80), not the claimed
two commissions P@1 = 50 and E@2 = 20 (total 70). -/
theorem scenarioA_claim_counterexample :
    resolveReferrer db0.users req0.referralCode = some ("B", userB) ∧
    (distribute 100 (uplineChain db0.users ("B", userB))).map
        (fun cr => (cr.beneficiaryId, cr.level, cr.percent)) =
      [("B", 1, 50), ("P", 2, 20), ("E", 3, 10)] ∧
    distribute 100 (uplineChain db0.users ("B", userB)) ≠
      [{ beneficiaryId := "P", level := 1, percent := 50, amountUsd := 50 },
       { beneficiaryId := "E", level := 2, percent := 20, amountUsd := 20 }] ∧
    ((distribute 100 (uplineChain db0.users ("B", userB))).map
        (fun cr => cr.amountUsd)).sum ≠ 70 := by
  refine ⟨by decide, by decide, ?_, ?_⟩
  · intro h
    have hlen := congrArg List.length h
    rw [scenarioA_actual] at hlen
    simp at hlen
  · rw [scenarioA_actual]
    norm_num

/-- Amended claim C6: for a sale of 100 settlement-units attributed to
the code of B, where B (Basic) is referred by P (Pro) and P by E (Elite), the
handler resolves the code owner B as the level-1 referrer and distribution
credits exactly three commissions, computed per level with the fixed table
50/20/10/5 and half-up two-decimal rounding: B at level 1 with
round2(100·50/100) = 50, P at level 2 with round2(100·20/100) = 20, and E
at level 3 with round2(100·10/100) = 10, for a total distributed of 80. -/
theorem scenarioA_distribution :
    resolveReferrer db0.users req0.referralCode = some ("B", userB) ∧
    distribute 100 (uplineChain db0.users ("B", userB)) =
      [{ beneficiaryId := "B", level := 1, percent := 50, amountUsd := 50 },
       { beneficiaryId := "P", level := 2, percent := 20, amountUsd := 20 },
       { beneficiaryId := "E", level := 3, percent := 10, amountUsd := 10 }] ∧
    ((distribute 100 (uplineChain db0.users ("B", userB))).map
        (fun cr => cr.amountUsd)).sum = 80 ∧
    commissionByLevel 1 = 50 ∧ commissionByLevel 2 = 20 ∧
    commissionByLevel 3 = 10 ∧ commissionByLevel 4 = 5 := by
  refine ⟨by decide, scenarioA_actual, ?_, rfl, rfl, rfl, rfl⟩
  rw [scenarioA_actual]
  norm_num

/-! ## C9: generated referral codes always validate -/

/-- Every character of the generation alphabet lies in the `[A-Z0-9]`
class accepted by the validation regex. -/
lemma referralAlphabet_isCodeChar :
    ∀ i : Fin referralAlphabet.length, isCodeChar (referralAlphabet.get i) = true := by
  decide

/-- The generation alphabet excludes the visually ambiguous zero. -/
lemma referralAlphabet_no_zero :
    ∀ i : Fin referralAlphabet.length, referralAlphabet.get i ≠ '0' := by
  decide

/-- Claim C9: every code `generateReferralCode` can produce (prefix "AF-"
plus 6 alphabet characters) passes `isValidReferralCode`, and the
generated language is a strict subset of the accepted language: the code
"AF-AB0CDE" validates (it contains a zero) but is never generated. -/
theorem generateReferralCode_roundtrip :
    (∀ draws : List (Fin referralAlphabet.length), draws.length = 6 →
        isValidReferralCode (generateReferralCode draws) = true) ∧
    isValidReferralCode "AF-AB0CDE" = true ∧
    (∀ draws : List (Fin referralAlphabet.length),
        generateReferralCode draws ≠ "AF-AB0CDE") := by
  refine ⟨?_, by decide, ?_⟩
  · intro draws hlen
    show (decide (4 ≤ (draws.map (fun i => referralAlphabet.get i)).length) &&
        (draws.map (fun i => referralAlphabet.get i)).all isCodeChar) = true
    have h4 : 4 ≤ (draws.map (fun i => referralAlphabet.get i)).length := by
      rw [List.length_map, hlen]; omega
    have hall : (draws.map (fun i => referralAlphabet.get i)).all isCodeChar = true := by
      rw [List.all_eq_true]
      intro c hc
      obtain ⟨i, _, rfl⟩ := List.mem_map.mp hc
      exact referralAlphabet_isCodeChar i
    simp only [Bool.and_eq_true, decide_eq_true_eq]
    exact ⟨h4, hall⟩
  · intro draws heq
    have hdata : 'A' :: 'F' :: '-' :: draws.map (fun i => referralAlphabet.get i) =
        ['A', 'F', '-', 'A', 'B', '0', 'C', 'D', 'E'] := congrArg String.data heq
    have hmap : draws.map (fun i => referralAlphabet.get i) =
        ['A', 'B', '0', 'C', 'D', 'E'] := by
      simpa using hdata
    have hzero : '0' ∈ draws.map (fun i => referralAlphabet.get i) := by
      rw [hmap]; decide
    obtain ⟨i, _, hi⟩ := List.mem_map.mp hzero
    exact referralAlphabet_no_zero i hi

/-- Witness for C9: a concrete draw list of length 6 produces a code the
validator accepts. -/
theorem generateReferralCode_roundtrip_witness :
    isValidReferralCode (generateReferralCode
      [⟨0, by decide⟩, ⟨1, by decide⟩, ⟨2, by decide⟩,
       ⟨3, by decide⟩, ⟨4, by decide⟩, ⟨5, by decide⟩]) = true :=
  generateReferralCode_roundtrip.1
    [⟨0, by decide⟩, ⟨1, by decide⟩, ⟨2, by decide⟩,
     ⟨3, by decide⟩, ⟨4, by decide⟩, ⟨5, by decide⟩] rfl

/-! ## C8: shape of the upline walk -/

/-- Levels of a walk segment starting at `level` are consecutive, and the
segment never exceeds the remaining fuel. -/
lemma walkUpline_levels (users : List (String × User)) :
    ∀ fuel level cur,
      (walkUpline users fuel level cur).map (fun e => e.level) =
        List.range' level (walkUpline users fuel level cur).length ∧
      (walkUpline users fuel level cur).length ≤ fuel := by
  intro fuel
  induction fuel with
  | zero => intro level cur; simp [walkUpline]
  | succ f ih =>
    intro level cur
    match hby : cur.2.referredBy with
    | none =>
      simp [walkUpline, hby]
    | some nextId =>
      match hlk : users.lookup nextId with
      | none =>
        simp [walkUpline, hby, hlk]
      | some u =>
        have := ih (level + 1) (nextId, u)
        simp only [walkUpline, hby, hlk, List.map_cons, List.length_cons]
        refine ⟨?_, by omega⟩
        rw [List.range'_succ]
        exact congrArg (List.cons level) this.1

/-- When a walk segment ends before its fuel runs out, its last entry has
no referrer link or a dangling one. -/
lemma walkUpline_stop (users : List (String × User)) :
    ∀ fuel level cur,
      (walkUpline users fuel level cur).length < fuel →
      ∃ e, (walkUpline users fuel level cur).getLast? = some e ∧
        (e.user.referredBy = none ∨
         ∃ rid, e.user.referredBy = some rid ∧ users.lookup rid = none) := by
  intro fuel
  induction fuel with
  | zero => intro level cur h; omega
  | succ f ih =>
    intro level cur hlen
    match hby : cur.2.referredBy with
    | none =>
      refine ⟨⟨level, cur.1, cur.2⟩, ?_, Or.inl hby⟩
      simp [walkUpline, hby]
    | some nextId =>
      match hlk : users.lookup nextId with
      | none =>
        refine ⟨⟨level, cur.1, cur.2⟩, ?_, Or.inr ⟨nextId, hby, hlk⟩⟩
        simp [walkUpline, hby, hlk]
      | some u =>
        match f, ih with
        | 0, _ =>
          exfalso
          simp [walkUpline, hby, hlk] at hlen
        | f' + 1, ih =>
          have hrec : (walkUpline users (f' + 1) (level + 1) (nextId, u)).length < f' + 1 := by
            have : (walkUpline users (f' + 1 + 1) level cur).length =
                (walkUpline users (f' + 1) (level + 1) (nextId, u)).length + 1 := by
              simp [walkUpline, hby, hlk]
            omega
          obtain ⟨e, hlast, hprop⟩ := ih (level + 1) (nextId, u) hrec
          refine ⟨e, ?_, hprop⟩
          have hshape : walkUpline users (f' + 1 + 1) level cur =
              ⟨level, cur.1, cur.2⟩ :: walkUpline users (f' + 1) (level + 1) (nextId, u) := by
            simp [walkUpline, hby, hlk]
          rw [hshape]
          rw [List.getLast?_cons]
          have hne : walkUpline users (f' + 1) (level + 1) (nextId, u) ≠ [] := by
            match hby2 : u.referredBy with
            | none => simp [walkUpline, hby2]
            | some nid2 =>
              match hlk2 : users.lookup nid2 with
              | none => simp [walkUpline, hby2, hlk2]
              | some u2 => simp [walkUpline, hby2, hlk2]
          rw [List.getLast?_eq_getLast _ hne] at hlast ⊢
          simpa [List.getLast_cons hne] using hlast

/-- Claim C8: the upline walk of the `/bundle/sales` handler returns an
ordered nonempty list whose levels are exactly 1, 2, …, of length at most
4; when it stops before level 4 the last entry either has no `referredBy`
link or a link to a missing user document (a broken chain truncates the
list rather than failing). -/
theorem uplineChain_shape (users : List (String × User)) (referrer : String × User) :
    (uplineChain users referrer).map (fun e => e.level) =
      List.range' 1 (uplineChain users referrer).length ∧
    (uplineChain users referrer).length ≤ 4 ∧
    1 ≤ (uplineChain users referrer).length ∧
    ((uplineChain users referrer).length < 4 →
      ∃ e, (uplineChain users referrer).getLast? = some e ∧
        (e.user.referredBy = none ∨
         ∃ rid, e.user.referredBy = some rid ∧ users.lookup rid = none)) := by
  refine ⟨(walkUpline_levels users 4 1 referrer).1,
          (walkUpline_levels users 4 1 referrer).2, ?_,
          fun h => walkUpline_stop users 4 1 referrer h⟩
  match hby : referrer.2.referredBy with
  | none => simp [uplineChain, walkUpline, hby]
  | some nextId =>
    match hlk : users.lookup nextId with
    | none => simp [uplineChain, walkUpline, hby, hlk]
    | some u => simp [uplineChain, walkUpline, hby, hlk]

/-- Witness for C8 on the concrete three-user chain starting at B: the
walk stops at E (length 3 < 4) because E has no referrer. -/
theorem uplineChain_shape_witness :
    ∃ e, (uplineChain db0.users ("B", userB)).getLast? = some e ∧
      (e.user.referredBy = none ∨
       ∃ rid, e.user.referredBy = some rid ∧ db0.users.lookup rid = none) :=
  (uplineChain_shape db0.users ("B", userB)).2.2.2 (by decide)

/-! ## C1: per-beneficiary gating of the distribution -/

/-- Membership in the distribution output, unfolded: a credit line arises
from exactly the chain entries whose level is within their own plan's cap
and whose level percentage is nonzero. -/
lemma mem_distribute (amountUsd : ℚ) (chain : List ChainEntry) (cr : CreditLine) :
    cr ∈ distribute amountUsd chain ↔
      ∃ e ∈ chain, e.level ≤ planLevelCap (orElseStr e.user.plan "basic") ∧
        commissionByLevel e.level ≠ 0 ∧
        cr = { beneficiaryId := e.id, level := e.level,
               percent := commissionByLevel e.level,
               amountUsd := round2 (amountUsd * (commissionByLevel e.level : ℚ) / 100) } := by
  unfold distribute
  rw [List.mem_filterMap]
  constructor
  · rintro ⟨e, he, hf⟩
    by_cases hcap : planLevelCap (orElseStr e.user.plan "basic") < e.level
    · simp [hcap] at hf
    · by_cases hpc : commissionByLevel e.level = 0
      · simp [hcap, hpc] at hf
      · simp only [hcap, hpc, if_neg, if_false] at hf
        refine ⟨e, he, by omega, hpc, ?_⟩
        simp only [if_neg hcap, if_neg hpc, Option.some.injEq] at hf
        exact hf.symm
  · rintro ⟨e, he, hcap, hpc, rfl⟩
    refine ⟨e, he, ?_⟩
    have hcap2 : ¬ planLevelCap (orElseStr e.user.plan "basic") < e.level := by omega
    simp only [if_neg hcap2, if_neg hpc]

/-- A commission write is staged by the batch exactly when the
distribution stages its credit line. -/
lemma putCommission_mem_batchOps (saleId buyerEmail : String) (holdUntil now : Nat)
    (amountUsd : ℚ) (chain : List ChainEntry) (referrerId : String) (c : Commission) :
    WriteOp.putCommission c ∈
        batchOps saleId buyerEmail holdUntil now amountUsd chain referrerId ↔
      ∃ cr ∈ distribute amountUsd chain,
        c = { transactionId := saleId, beneficiaryId := cr.beneficiaryId,
              level := cr.level, percent := cr.percent, amountUsd := cr.amountUsd,
              status := "pending", holdUntil := holdUntil,
              createdAt := now, updatedAt := now } := by
  unfold batchOps
  rw [List.mem_append, List.mem_flatMap]
  simp

/-- A stats increment is staged by the batch exactly when the distribution
stages a credit line for that beneficiary and amount. -/
lemma credit_mem_batchOps (saleId buyerEmail : String) (holdUntil now : Nat)
    (amountUsd : ℚ) (chain : List ChainEntry) (referrerId : String) (b : String) (a : ℚ) :
    WriteOp.credit b a ∈
        batchOps saleId buyerEmail holdUntil now amountUsd chain referrerId ↔
      ∃ cr ∈ distribute amountUsd chain, cr.beneficiaryId = b ∧ cr.amountUsd = a := by
  unfold batchOps
  rw [List.mem_append, List.mem_flatMap]
  constructor
  · rintro (⟨cr, hcr, hmem⟩ | hact)
    · simp only [List.mem_cons, List.mem_singleton] at hmem
      rcases hmem with h | h | h
      · cases h
      · cases h; exact ⟨cr, hcr, rfl, rfl⟩
      · cases h
    · simp at hact
  · rintro ⟨cr, hcr, rfl, rfl⟩
    exact Or.inl ⟨cr, hcr, by simp⟩

/-- The fixed percentage table is nonzero on levels 1 through 4. -/
lemma commissionByLevel_ne_zero {lv : Nat} (h1 : 1 ≤ lv) (h4 : lv ≤ 4) :
    commissionByLevel lv ≠ 0 := by
  interval_cases lv <;> simp [commissionByLevel]

/-- Claim C1: for any chain with levels in 1..4 and any tier assignment,
the batch stages a commission document for (level, beneficiary) exactly
when some chain entry at that level and id has its own plan's cap at or
above the level, and stages a balance increment for a beneficiary exactly
when such an entry exists for it at some level; a skipped entry gets
neither, and the gate reads only the entry's own plan. -/
theorem bundleSales_distribution_gating (amountUsd : ℚ) (chain : List ChainEntry)
    (saleId buyerEmail : String) (holdUntil now : Nat) (referrerId : String)
    (hlv : ∀ e ∈ chain, 1 ≤ e.level ∧ e.level ≤ 4) :
    (∀ lv b,
      (∃ c : Commission,
          WriteOp.putCommission c ∈
            batchOps saleId buyerEmail holdUntil now amountUsd chain referrerId ∧
          c.level = lv ∧ c.beneficiaryId = b) ↔
      (∃ e ∈ chain, e.level = lv ∧ e.id = b ∧
          lv ≤ planLevelCap (orElseStr e.user.plan "basic"))) ∧
    (∀ b,
      (∃ a, WriteOp.credit b a ∈
          batchOps saleId buyerEmail holdUntil now amountUsd chain referrerId) ↔
      (∃ e ∈ chain, e.id = b ∧
          e.level ≤ planLevelCap (orElseStr e.user.plan "basic"))) := by
  constructor
  · intro lv b
    constructor
    · rintro ⟨c, hmem, hlvl, hben⟩
      rw [putCommission_mem_batchOps] at hmem
      obtain ⟨cr, hcr, rfl⟩ := hmem
      rw [mem_distribute] at hcr
      obtain ⟨e, he, hcap, hpc, rfl⟩ := hcr
      exact ⟨e, he, hlvl ▸ rfl, hben ▸ rfl, by simpa [← hlvl] using hcap⟩
    · rintro ⟨e, he, rfl, rfl, hcap⟩
      refine ⟨_, (putCommission_mem_batchOps _ _ _ _ _ _ _ _).mpr
        ⟨_, (mem_distribute _ _ _).mpr
          ⟨e, he, hcap, commissionByLevel_ne_zero (hlv e he).1 (hlv e he).2, rfl⟩, rfl⟩,
        rfl, rfl⟩
  · intro b
    constructor
    · rintro ⟨a, hmem⟩
      rw [credit_mem_batchOps] at hmem
      obtain ⟨cr, hcr, rfl, rfl⟩ := hmem
      rw [mem_distribute] at hcr
      obtain ⟨e, he, hcap, hpc, rfl⟩ := hcr
      exact ⟨e, he, rfl, hcap⟩
    · rintro ⟨e, he, rfl, hcap⟩
      exact ⟨_, (credit_mem_batchOps _ _ _ _ _ _ _ _ _).mpr
        ⟨_, (mem_distribute _ _ _).mpr
          ⟨e, he, hcap, commissionByLevel_ne_zero (hlv e he).1 (hlv e he).2, rfl⟩, rfl, rfl⟩⟩

/-- Basic-tier variant of P used by the C1 witness (spec scenario B). -/
def userPbasic : User :=
  { uid := some "P", plan := some "basic", referralCode := some "AF-PPPPPP",
    referredBy := some "E" }

/-- Chain fixture of spec scenario B: P now Basic at level 1, E Elite at
level 2; E is still credited at level 2 because only E's own tier gates it. -/
def chainB : List ChainEntry := [⟨1, "P", userPbasic⟩, ⟨2, "E", userE⟩]

/-- Witness for C1: on scenario B's chain a level-2 commission document
for E is staged even though the level-1 member P is only Basic. -/
theorem bundleSales_distribution_gating_witness :
    ∃ c : Commission,
      WriteOp.putCommission c ∈ batchOps "sale-1" "x@y.com" 10 0 100 chainB "P" ∧
      c.level = 2 ∧ c.beneficiaryId = "E" :=
  ((bundleSales_distribution_gating 100 chainB "sale-1" "x@y.com" 10 0 "P"
      (by decide)).1 2 "E").mpr (by decide)

/-! ## C10: buildDownline is fuel-bounded and its counts are exact -/

/-- The downline loop halts immediately on an empty frontier. -/
lemma buildDownlineLoop_nil (users : List (String × User)) :
    ∀ level remaining, buildDownlineLoop users level remaining [] = ([], []) := by
  intro level remaining
  cases remaining with
  | zero => rfl
  | succ r => simp [buildDownlineLoop]

/-- Structure of the downline loop: member levels stay within the
remaining window, count keys are consecutive levels, each count is the
exact number of members found at its level, and a zero count is always the
last entry. -/
lemma buildDownlineLoop_spec (users : List (String × User)) :
    ∀ remaining level currentIds ms cs,
      buildDownlineLoop users level remaining currentIds = (ms, cs) →
      (∀ m ∈ ms, level ≤ m.level ∧ m.level < level + remaining) ∧
      cs.map Prod.fst = List.range' level cs.length ∧
      cs.length ≤ remaining ∧
      (∀ lc ∈ cs, lc.2 = (ms.filter (fun m => m.level = lc.1)).length) ∧
      (∀ l, (l, 0) ∈ cs → l + 1 = level + cs.length) := by
  intro remaining
  induction remaining with
  | zero =>
    intro level currentIds ms cs h
    obtain ⟨rfl, rfl⟩ : ms = [] ∧ cs = [] := by
      simpa [buildDownlineLoop] using h.symm
    simp
  | succ r ih =>
    intro level currentIds ms cs h
    by_cases hids : currentIds.isEmpty
    · obtain ⟨rfl, rfl⟩ : ms = [] ∧ cs = [] := by
        simpa [buildDownlineLoop, hids] using h.symm
      simp
    · rw [show buildDownlineLoop users level (r + 1) currentIds =
          (let levelUsers := fetchUsersByReferrers users currentIds
           let rest := buildDownlineLoop users (level + 1) r
             (levelUsers.map (fun p => orElseStr p.2.uid p.1))
           (levelUsers.map (toMember level) ++ rest.1,
            (level, levelUsers.length) :: rest.2)) by
        simp [buildDownlineLoop, hids]] at h
      set levelUsers := fetchUsersByReferrers users currentIds with hlu
      set nextIds := levelUsers.map (fun p => orElseStr p.2.uid p.1) with hni
      obtain ⟨ms1, cs1, hrest⟩ :
          ∃ a b, buildDownlineLoop users (level + 1) r nextIds = (a, b) :=
        ⟨_, _, rfl⟩
      simp only [hrest] at h
      injection h with hms hcs
      obtain ⟨ih1, ih2, ih3, ih4, ih5⟩ := ih (level + 1) nextIds ms1 cs1 hrest
      subst hms hcs
      have hA : ∀ m ∈ levelUsers.map (toMember level), m.level = level := by
        intro m hm
        obtain ⟨p, _, rfl⟩ := List.mem_map.mp hm
        rfl
      refine ⟨?_, ?_, ?_, ?_, ?_⟩
      · intro m hm
        rcases List.mem_append.mp hm with hm | hm
        · have := hA m hm; omega
        · have := ih1 m hm; omega
      · simp only [List.map_cons, List.length_cons, List.range'_succ]
        exact congrArg (List.cons level) ih2
      · simp only [List.length_cons]; omega
      · intro lc hlc
        rcases List.mem_cons.mp hlc with rfl | hlc
        · simp only [List.filter_append]
        
          have hfa : (levelUsers.map (toMember level)).filter
              (fun m => decide (m.level = level)) = levelUsers.map (toMember level) := by
            rw [List.filter_eq_self]
            intro m hm
            simp [hA m hm]
          have hfb : ms1.filter (fun m => decide (m.level = level)) = [] := by
            rw [List.filter_eq_nil_iff]
            intro m hm
            have := ih1 m hm
            simp only [decide_eq_true_eq]
            omega
          simp only [hfa, hfb, List.append_nil, List.length_map]
        · have hge : level + 1 ≤ lc.1 := by
            have : lc.1 ∈ cs1.map Prod.fst := List.mem_map.mpr ⟨lc, hlc, rfl⟩
            rw [ih2] at this
            exact (List.mem_range'_1.mp this).1
          rw [ih4 lc hlc]
          simp only [List.filter_append]
          have hfa : (levelUsers.map (toMember level)).filter
              (fun m => decide (m.level = lc.1)) = [] := by
            rw [List.filter_eq_nil_iff]
            intro m hm
            have := hA m hm
            simp only [decide_eq_true_eq]
            omega
          simp [hfa]
      · intro l hl
        rcases List.mem_cons.mp hl with heq | hl
        · injection heq with hl1 hl2
          subst hl1
          have : levelUsers = [] := List.length_eq_zero.mp hl2.symm
          have hnil : nextIds = [] := by rw [hni, this]; rfl
          rw [hnil, buildDownlineLoop_nil] at hrest
          obtain ⟨rfl, rfl⟩ : ms1 = [] ∧ cs1 = [] :=
            ⟨(congrArg Prod.fst hrest).symm, (congrArg Prod.snd hrest).symm⟩
          simp
        · have hge : level + 1 ≤ l := by
            have : l ∈ cs1.map Prod.fst := List.mem_map.mpr ⟨(l, 0), hl, rfl⟩
            rw [ih2] at this
            exact (List.mem_range'_1.mp this).1
          have := ih5 l hl
          simp only [List.length_cons]
          omega

/-- Claim C10: `buildDownline` is bounded by the level counter alone — for
every stored referrer relation, including cyclic or self-referential
`referredBy` data, expansion covers at most `maxLevels` levels (the model
is structurally recursive on that bound, mirroring the loop guard
`currentLevel <= maxLevels`); every member carries the level at which it
was found, the count map gives the exact number of members per explored
level in level order, and a level that yields zero members is the last one
explored. -/
theorem buildDownline_bounded (users : List (String × User)) (rootUid : String)
    (maxLevels : Nat) :
    (∀ m ∈ (buildDownline users rootUid maxLevels).1,
        1 ≤ m.level ∧ m.level ≤ maxLevels) ∧
    (buildDownline users rootUid maxLevels).2.map Prod.fst =
      List.range' 1 (buildDownline users rootUid maxLevels).2.length ∧
    (buildDownline users rootUid maxLevels).2.length ≤ maxLevels ∧
    (∀ lc ∈ (buildDownline users rootUid maxLevels).2,
        lc.2 = ((buildDownline users rootUid maxLevels).1.filter
          (fun m => m.level = lc.1)).length) ∧
    (∀ l, (l, 0) ∈ (buildDownline users rootUid maxLevels).2 →
        (buildDownline users rootUid maxLevels).2.length = l) := by
  obtain ⟨ms, cs, hbd⟩ :
      ∃ a b, buildDownlineLoop users 1 maxLevels [rootUid] = (a, b) := ⟨_, _, rfl⟩
  obtain ⟨h1, h2, h3, h4, h5⟩ := buildDownlineLoop_spec users maxLevels 1 [rootUid] ms cs hbd
  have hb : buildDownline users rootUid maxLevels = (ms, cs) := hbd
  rw [hb]
  refine ⟨fun m hm => ?_, h2, h3, h4, fun l hl => ?_⟩
  · have := h1 m hm; omega
  · have hl2 : (l, 0) ∈ cs := hl
    have := h5 l hl2
    show cs.length = l
    omega

/-- Witness for C10: on the concrete fixture rooted at E the explored
levels are 1, 2, 3 and level 3 yields zero members, so exactly three
levels were explored. -/
theorem buildDownline_bounded_witness :
    (buildDownline db0.users "E" 4).2.length = 3 :=
  (buildDownline_bounded db0.users "E" 4).2.2.2.2 3 (by decide)

/-! ## Plan shape lemmas for the /bundle/sales handler -/

/-- Invalid payloads are rejected with no writes. -/
lemma bundleSalesPlan_invalid (db : DB) (now : Nat) (freshId : String) (req : SaleReq)
    (hv : validSaleReq req = false) :
    bundleSalesPlan db now freshId req = ([], salesErr "Invalid payload") := by
  simp [bundleSalesPlan, hv]

/-- A sale already stored under the idempotency key short-circuits to the
"exists" response with no writes. -/
lemma bundleSalesPlan_exists (db : DB) (now : Nat) (freshId : String) (req : SaleReq)
    (s : Sale) (hv : validSaleReq req = true)
    (hs : db.sales.lookup ((req.externalId).getD freshId) = some s) :
    bundleSalesPlan db now freshId req =
      ([], salesOk ((req.externalId).getD freshId) "exists") := by
  simp [bundleSalesPlan, hv, hs]

/-- With no resolved referrer, the plan is the single sale write and the
"no-referrer" response. -/
lemma bundleSalesPlan_noref (db : DB) (now : Nat) (freshId : String) (req : SaleReq)
    (hv : validSaleReq req = true)
    (hs : db.sales.lookup ((req.externalId).getD freshId) = none)
    (hr : resolveReferrer db.users req.referralCode = none) :
    bundleSalesPlan db now freshId req =
      ([[WriteOp.putSale ((req.externalId).getD freshId) (mkSale req now none)]],
       salesOk ((req.externalId).getD freshId) "no-referrer") := by
  simp [bundleSalesPlan, hv, hs, hr]

/-- With a resolved referrer, the plan is the sale write followed by the
distribution batch, and the "recorded" response. -/
lemma bundleSalesPlan_recorded (db : DB) (now : Nat) (freshId : String) (req : SaleReq)
    (r : String × User) (hv : validSaleReq req = true)
    (hs : db.sales.lookup ((req.externalId).getD freshId) = none)
    (hr : resolveReferrer db.users req.referralCode = some r) :
    bundleSalesPlan db now freshId req =
      ([[WriteOp.putSale ((req.externalId).getD freshId) (mkSale req now (some r.1))],
        batchOps ((req.externalId).getD freshId) req.buyerEmail (holdUntilDate now) now
          (penToUsd req.amountPen) (uplineChain db.users r) r.1],
       salesOk ((req.externalId).getD freshId) "recorded") := by
  simp [bundleSalesPlan, hv, hs, hr]

/-- Applying writes distributes over list append. -/
lemma applyOps_append (db : DB) (l1 l2 : List WriteOp) :
    applyOps db (l1 ++ l2) = applyOps (applyOps db l1) l2 :=
  List.foldl_append ..

/-- Writes other than `putSale` leave the sales collection untouched. -/
lemma applyOps_sales_of_no_putSale (ops : List WriteOp)
    (h : ∀ sid s, WriteOp.putSale sid s ∉ ops) :
    ∀ db : DB, (applyOps db ops).sales = db.sales := by
  induction ops with
  | nil => intro db; rfl
  | cons op rest ih =>
    intro db
    have hrest : ∀ sid s, WriteOp.putSale sid s ∉ rest := by
      intro sid s hmem
      exact h sid s (List.mem_cons_of_mem _ hmem)
    have hstep : (applyOp db op).sales = db.sales := by
      cases op with
      | putSale sid s => exact absurd (List.mem_cons_self _ _) (h sid s)
      | putCommission c => rfl
      | credit uid a => rfl
      | putActivity uid a => rfl
    calc (applyOps db (op :: rest)).sales
        = (applyOps (applyOp db op) rest).sales := rfl
      _ = (applyOp db op).sales := ih hrest (applyOp db op)
      _ = db.sales := hstep

/-- The distribution batch never writes a sale document. -/
lemma batchOps_no_putSale (saleId buyerEmail : String) (holdUntil now : Nat)
    (amountUsd : ℚ) (chain : List ChainEntry) (referrerId : String) :
    ∀ sid s, WriteOp.putSale sid s ∉
      batchOps saleId buyerEmail holdUntil now amountUsd chain referrerId := by
  intro sid s hmem
  unfold batchOps at hmem
  rcases List.mem_append.mp hmem with hmem | hmem
  · obtain ⟨cr, _, hmem⟩ := List.mem_flatMap.mp hmem
    rcases List.mem_cons.mp hmem with h | h
    · cases h
    · rcases List.mem_cons.mp h with h | h
      · cases h
      · cases h
  · rcases List.mem_cons.mp hmem with h | h
    · cases h
    · cases h

/-- After a successful run of the handler the sale document is stored
under the resolved sale id. -/
lemma bundleSales_sale_present (db : DB) (now : Nat) (freshId : String) (req : SaleReq)
    (h1 : ((bundleSales db now freshId req).2).ok = true) :
    ∃ s, ((bundleSales db now freshId req).1).sales.lookup
      ((req.externalId).getD freshId) = some s := by
  have hv : validSaleReq req = true := by
    by_contra hvf
    rw [Bool.not_eq_true] at hvf
    have hplan := bundleSalesPlan_invalid db now freshId req hvf
    simp [bundleSales, hplan, salesErr] at h1
  cases hlk : db.sales.lookup ((req.externalId).getD freshId) with
  | some s0 =>
    have hplan := bundleSalesPlan_exists db now freshId req s0 hv hlk
    refine ⟨s0, ?_⟩
    simp [bundleSales, hplan, applyOps, hlk]
  | none =>
    cases hr : resolveReferrer db.users req.referralCode with
    | none =>
      have hplan := bundleSalesPlan_noref db now freshId req hv hlk hr
      refine ⟨mkSale req now none, ?_⟩
      simp [bundleSales, hplan, applyOps, applyOp, List.lookup]
    | some r =>
      have hplan := bundleSalesPlan_recorded db now freshId req r hv hlk hr
      refine ⟨mkSale req now (some r.1), ?_⟩
      have hsales : ((bundleSales db now freshId req).1).sales =
          ((req.externalId).getD freshId, mkSale req now (some r.1)) :: db.sales := by
        show ((bundleSalesPlan db now freshId req).1.flatten.foldl applyOp db).sales = _
        rw [hplan]
        show (applyOps db ([WriteOp.putSale ((req.externalId).getD freshId)
          (mkSale req now (some r.1))] ++
            (batchOps ((req.externalId).getD freshId) req.buyerEmail (holdUntilDate now) now
              (penToUsd req.amountPen) (uplineChain db.users r) r.1 ++ []))).sales = _
        rw [applyOps_append]
        rw [applyOps_sales_of_no_putSale]
        · rfl
        · intro sid s hmem
          rw [List.append_nil] at hmem
          exact batchOps_no_putSale _ _ _ _ _ _ _ sid s hmem
      rw [hsales]
      simp [List.lookup]

/-! ## C3: idempotent replay on the idempotency key -/

/-- Claim C3: after a completed (successful) run for a request carrying an
external id, running the handler again with the same request leaves the
database exactly as it was — no new sale, no new commission documents, no
further balance increments — and reports success on the existing sale. -/
theorem recordSale_idempotent (db : DB) (now1 : Nat) (f1 : String) (now2 : Nat)
    (f2 : String) (req : SaleReq) (eid : String)
    (hid : req.externalId = some eid)
    (h1 : ((bundleSales db now1 f1 req).2).ok = true) :
    bundleSales (bundleSales db now1 f1 req).1 now2 f2 req =
      ((bundleSales db now1 f1 req).1, salesOk eid "exists") := by
  have hv : validSaleReq req = true := by
    by_contra hvf
    rw [Bool.not_eq_true] at hvf
    have hplan := bundleSalesPlan_invalid db now1 f1 req hvf
    simp [bundleSales, hplan, salesErr] at h1
  obtain ⟨s, hs⟩ := bundleSales_sale_present db now1 f1 req h1
  have hs2 : ((bundleSales db now1 f1 req).1).sales.lookup
      ((req.externalId).getD f2) = some s := by
    rw [hid] at hs ⊢
    exact hs
  have hplan2 := bundleSalesPlan_exists (bundleSales db now1 f1 req).1 now2 f2 req s hv hs2
  have hres : bundleSales (bundleSales db now1 f1 req).1 now2 f2 req =
      ((bundleSales db now1 f1 req).1,
        salesOk ((req.externalId).getD f2) "exists") := by
    show ((bundleSalesPlan (bundleSales db now1 f1 req).1 now2 f2 req).1.flatten.foldl
        applyOp (bundleSales db now1 f1 req).1,
      (bundleSalesPlan (bundleSales db now1 f1 req).1 now2 f2 req).2) = _
    rw [hplan2]
    rfl
  rw [hres, hid]
  rfl

/-- Witness for C3: running the handler twice on the fixture request
returns the stored state unchanged and the "exists" status. -/
theorem recordSale_idempotent_witness :
    bundleSales (bundleSales db0 0 "f1" req0).1 5 "f2" req0 =
      ((bundleSales db0 0 "f1" req0).1, salesOk "sale-1" "exists") :=
  recordSale_idempotent db0 0 "f1" 5 "f2" req0 "sale-1" rfl (by decide)

/-! ## C7: sales without a resolvable referrer succeed with no distribution -/

/-- Claim C7: when the referral code is absent, syntactically invalid, or
unknown, the handler persists the sale as "paid" with a null referrer,
creates no commission documents, touches no balances, and returns a
success response — never an error. -/
theorem bundleSales_no_referrer (db : DB) (now : Nat) (freshId : String) (req : SaleReq)
    (hv : validSaleReq req = true)
    (hs : db.sales.lookup ((req.externalId).getD freshId) = none)
    (hcase : req.referralCode = none ∨
      (∃ code, req.referralCode = some code ∧ isValidReferralCode code = false) ∨
      (∃ code, req.referralCode = some code ∧ isValidReferralCode code = true ∧
        findUserByReferral db.users (toUpperCase code) = none)) :
    bundleSales db now freshId req =
      ({ db with sales :=
          (((req.externalId).getD freshId), mkSale req now none) :: db.sales },
       salesOk ((req.externalId).getD freshId) "no-referrer") ∧
    (mkSale req now none).status = "paid" ∧
    (mkSale req now none).referrerId = none ∧
    (bundleSales db now freshId req).1.commissions = db.commissions ∧
    (bundleSales db now freshId req).1.stats = db.stats := by
  have hr : resolveReferrer db.users req.referralCode = none := by
    rcases hcase with hnone | ⟨code, hcode, hbad⟩ | ⟨code, hcode, hok, hmiss⟩
    · simp [resolveReferrer, hnone]
    · simp [resolveReferrer, hcode, hbad]
    · simp [resolveReferrer, hcode, hok, hmiss]
  have hplan := bundleSalesPlan_noref db now freshId req hv hs hr
  have hmain : bundleSales db now freshId req =
      ({ db with sales :=
          (((req.externalId).getD freshId), mkSale req now none) :: db.sales },
       salesOk ((req.externalId).getD freshId) "no-referrer") := by
    show ((bundleSalesPlan db now freshId req).1.flatten.foldl applyOp db,
      (bundleSalesPlan db now freshId req).2) = _
    rw [hplan]
    rfl
  refine ⟨hmain, rfl, rfl, ?_, ?_⟩ <;> rw [hmain]

/-- Request fixture with a syntactically invalid referral code. -/
def reqInvalidCode : SaleReq :=
  { externalId := some "sale-2", buyerEmail := "x@y.com", amountPen := 100,
    referralCode := some "zz-bad", source := none }

/-- Witness for C7: the fixture sale with an invalid code is stored as
paid with no referrer and no distribution. -/
theorem bundleSales_no_referrer_witness :
    bundleSales db0 3 "f3" reqInvalidCode =
      ({ db0 with sales := [("sale-2", mkSale reqInvalidCode 3 none)] },
       salesOk "sale-2" "no-referrer") :=
  (bundleSales_no_referrer db0 3 "f3" reqInvalidCode (by decide) (by decide)
    (Or.inr (Or.inl ⟨"zz-bad", rfl, by decide⟩))).1

/-! ## C2: atomicity of the handler's writes -/

/-- Counterexample to claim C2 as stated: in the concrete fixture run, the
state after the first atomic unit alone (the `saleRef.set` that the
handler awaits before building the batch) is reachable, has the sale
stored with status "paid", yet carries none of the commissions the
completed run creates — so the sale record and the ledger writes are not
one atomic unit. -/
theorem saleWrite_outside_batch_counterexample :
    ReachableState db0 0 "f" req0
      (applyOps db0 (((bundleSalesPlan db0 0 "f" req0).1.take 1).flatten)) ∧
    ((applyOps db0 (((bundleSalesPlan db0 0 "f" req0).1.take 1).flatten)).sales.lookup
        "sale-1").map (fun s => s.status) = some "paid" ∧
    (applyOps db0 (((bundleSalesPlan db0 0 "f" req0).1.take 1).flatten)).commissions = [] ∧
    (bundleSales db0 0 "f" req0).1.commissions ≠ [] :=
  ⟨⟨1, rfl⟩, by decide, by decide, by decide⟩

/-- Amended claim C2: the commission documents and balance increments of
one sale are committed as a single atomic unit (every reachable state has
either none or all of them), but the sale write itself precedes that unit
outside it. -/
theorem ledger_batch_atomic (db : DB) (now : Nat) (freshId : String) (req : SaleReq)
    (st : DB) (h : ReachableState db now freshId req st) :
    (st.commissions = db.commissions ∧ st.stats = db.stats) ∨
    (st.commissions = (bundleSales db now freshId req).1.commissions ∧
     st.stats = (bundleSales db now freshId req).1.stats) := by
  obtain ⟨k, rfl⟩ := h
  by_cases hv : validSaleReq req = true
  · cases hlk : db.sales.lookup ((req.externalId).getD freshId) with
    | some s0 =>
      have hplan := bundleSalesPlan_exists db now freshId req s0 hv hlk
      have hnil : (((bundleSalesPlan db now freshId req).1.take k).flatten) = [] := by
        rw [hplan]; simp
      rw [hnil]
      exact Or.inl ⟨rfl, rfl⟩
    | none =>
      cases hr : resolveReferrer db.users req.referralCode with
      | none =>
        have hplan := bundleSalesPlan_noref db now freshId req hv hlk hr
        cases k with
        | zero =>
          have hnil : (((bundleSalesPlan db now freshId req).1.take 0).flatten) = [] := by
            simp
          rw [hnil]
          exact Or.inl ⟨rfl, rfl⟩
        | succ k1 =>
          have hone : (((bundleSalesPlan db now freshId req).1.take (k1 + 1)).flatten) =
              [WriteOp.putSale ((req.externalId).getD freshId) (mkSale req now none)] := by
            rw [hplan]; simp
          rw [hone]
          exact Or.inl ⟨rfl, rfl⟩
      | some r =>
        have hplan := bundleSalesPlan_recorded db now freshId req r hv hlk hr
        cases k with
        | zero =>
          have hnil : (((bundleSalesPlan db now freshId req).1.take 0).flatten) = [] := by
            simp
          rw [hnil]
          exact Or.inl ⟨rfl, rfl⟩
        | succ k1 =>
          cases k1 with
          | zero =>
            have hone : (((bundleSalesPlan db now freshId req).1.take 1).flatten) =
                [WriteOp.putSale ((req.externalId).getD freshId)
                  (mkSale req now (some r.1))] := by
              rw [hplan]; simp
            rw [hone]
            exact Or.inl ⟨rfl, rfl⟩
          | succ k2 =>
            have hall : (((bundleSalesPlan db now freshId req).1.take (k2 + 1 + 1)).flatten) =
                (bundleSalesPlan db now freshId req).1.flatten := by
              rw [hplan]; simp
            rw [hall]
            exact Or.inr ⟨rfl, rfl⟩
  · have hplan := bundleSalesPlan_invalid db now freshId req (by rwa [Bool.not_eq_true] at hv)
    have hnil : (((bundleSalesPlan db now freshId req).1.take k).flatten) = [] := by
      rw [hplan]; simp
    rw [hnil]
    exact Or.inl ⟨rfl, rfl⟩

/-- Witness for the amended C2 on the fixture run: the state after the
sale-only prefix has the original (empty) commissions and stats. -/
theorem ledger_batch_atomic_witness :
    ((applyOps db0 (((bundleSalesPlan db0 0 "f" req0).1.take 1).flatten)).commissions =
        db0.commissions ∧
     (applyOps db0 (((bundleSalesPlan db0 0 "f" req0).1.take 1).flatten)).stats =
        db0.stats) ∨
    ((applyOps db0 (((bundleSalesPlan db0 0 "f" req0).1.take 1).flatten)).commissions =
        (bundleSales db0 0 "f" req0).1.commissions ∧
     (applyOps db0 (((bundleSalesPlan db0 0 "f" req0).1.take 1).flatten)).stats =
        (bundleSales db0 0 "f" req0).1.stats) :=
  ledger_batch_atomic db0 0 "f" req0
    (applyOps db0 (((bundleSalesPlan db0 0 "f" req0).1.take 1).flatten)) ⟨1, rfl⟩

/-! ## C4: totalEarnings = pending + available is preserved -/

/-- Reading back a merged stats write: the targeted participant sees the
update applied to its previous (or default) record, everyone else is
untouched. -/
lemma lookup_setStats (uid : String) (f : Stats → Stats) :
    ∀ (l : List (String × Stats)) (uid2 : String),
      (setStats l uid f).lookup uid2 =
        if uid2 = uid then some (f ((l.lookup uid).getD {})) else l.lookup uid2 := by
  intro l
  induction l with
  | nil =>
    intro uid2
    by_cases h : uid2 = uid
    · subst h
      simp [setStats, List.lookup_cons]
    · simp [setStats, List.lookup_cons, beq_false_of_ne h, h]
  | cons p rest ih =>
    obtain ⟨k, s⟩ := p
    intro uid2
    by_cases hk : k = uid
    · subst hk
      by_cases h2 : uid2 = k
      · subst h2
        simp [setStats, List.lookup_cons]
      · simp [setStats, List.lookup_cons, beq_false_of_ne h2, h2]
    · have hne2 : (uid == k) = false := beq_false_of_ne (fun h => hk h.symm)
      by_cases h2 : uid2 = k
      · subst h2
        simp [setStats, hk, List.lookup_cons, hne2]
      · simp [setStats, hk, List.lookup_cons, beq_false_of_ne h2, h2, hne2, ih uid2]

/-- Settlement either is a no-op or rewrites the beneficiary's stats by
moving the released total from pending to available. -/
lemma refreshPendingCommissions_stats_cases (db : DB) (uid : String) (now : Nat) :
    refreshPendingCommissions db uid now = db ∨
    (refreshPendingCommissions db uid now).stats =
      setStats db.stats uid (fun s =>
        { s with
          pendingBalanceUsd := s.pendingBalanceUsd -
            ((db.commissions.filter (isDueCommission uid now)).map
              (fun c => c.amountUsd)).sum,
          availableBalanceUsd := s.availableBalanceUsd +
            ((db.commissions.filter (isDueCommission uid now)).map
              (fun c => c.amountUsd)).sum }) := by
  unfold refreshPendingCommissions
  by_cases hemp : (db.commissions.filter (isDueCommission uid now)).isEmpty
  · left; simp [hemp]
  · right; simp [hemp]

/-- Every single staged write preserves the balance invariant: the only
stats mutation, `credit`, increments `totalEarningsUsd` and
`pendingBalanceUsd` by the same amount. -/
lemma dbStatsInv_applyOp (db : DB) (op : WriteOp) (h : dbStatsInv db) :
    dbStatsInv (applyOp db op) := by
  cases op with
  | putSale sid s => exact h
  | putCommission c => exact h
  | putActivity uid a => exact h
  | credit uid a =>
    intro uid2
    show statsInv (((setStats db.stats uid _).lookup uid2).getD {})
    rw [lookup_setStats]
    by_cases h2 : uid2 = uid
    · subst h2
      simp only [eq_self_iff_true, if_true, Option.getD_some]
      have hbase := h uid2
      unfold statsInv at hbase ⊢
      unfold getStats at hbase
      show ((db.stats.lookup uid2).getD {}).totalEarningsUsd + a =
        (((db.stats.lookup uid2).getD {}).pendingBalanceUsd + a) +
          ((db.stats.lookup uid2).getD {}).availableBalanceUsd
      rw [hbase]
      ring
    · simp only [if_neg h2]
      exact h uid2

/-- A whole list of staged writes preserves the balance invariant. -/
lemma dbStatsInv_applyOps (ops : List WriteOp) :
    ∀ db : DB, dbStatsInv db → dbStatsInv (applyOps db ops) := by
  induction ops with
  | nil => intro db h; exact h
  | cons op rest ih =>
    intro db h
    exact ih (applyOp db op) (dbStatsInv_applyOp db op h)

/-- Claim C4: the balance invariant `totalEarningsUsd = pendingBalanceUsd
+ availableBalanceUsd` holds for the all-zero record `ensureStats`
creates, is preserved by a full `/bundle/sales` run (each credit adds the
same amount to total and pending), and is preserved by settlement, which
moves the released total from pending to available leaving every
participant's `totalEarningsUsd` unchanged; the model's mutations are all
additive increments, and the invariant is exact, hence within the claim's
rounding tolerance. -/
theorem balance_invariant_preserved (db : DB) (now : Nat) (freshId : String)
    (req : SaleReq) (uid uid3 : String) (planId : String) (now2 : Nat)
    (h : dbStatsInv db) :
    statsInv ({} : Stats) ∧
    dbStatsInv (ensureStats db uid3 planId) ∧
    dbStatsInv (bundleSales db now freshId req).1 ∧
    dbStatsInv (refreshPendingCommissions db uid now2) ∧
    (∀ u, (getStats (refreshPendingCommissions db uid now2) u).totalEarningsUsd =
      (getStats db u).totalEarningsUsd) := by
  have hmove := refreshPendingCommissions_stats_cases db uid now2
  refine ⟨by simp [statsInv], ?_, ?_, ?_, ?_⟩
  · unfold ensureStats
    cases hlk : db.stats.lookup uid3 with
    | some s => exact h
    | none =>
      intro u
      show statsInv ((((db.stats ++ [(uid3, ({ plan := some planId } : Stats))]).lookup u)).getD {})
      rw [List.lookup_append]
      cases hu : db.stats.lookup u with
      | some s =>
        have := h u
        unfold getStats at this
        rw [hu] at this
        simpa using this
      | none =>
        by_cases h3 : u = uid3
        · subst h3
          simp [List.lookup_cons, statsInv]
        · simp [List.lookup_cons, beq_false_of_ne h3, statsInv]
  · exact dbStatsInv_applyOps _ db h
  · rcases hmove with heq | hstats
    · rw [heq]; exact h
    · intro u
      show statsInv (((refreshPendingCommissions db uid now2).stats.lookup u).getD {})
      rw [hstats, lookup_setStats]
      by_cases h2 : u = uid
      · subst h2
        simp only [eq_self_iff_true, if_true, Option.getD_some]
        have hbase := h u
        unfold statsInv at hbase ⊢
        unfold getStats at hbase
        show ((db.stats.lookup u).getD {}).totalEarningsUsd =
          (((db.stats.lookup u).getD {}).pendingBalanceUsd -
            ((db.commissions.filter (isDueCommission u now2)).map
              (fun c => c.amountUsd)).sum) +
            (((db.stats.lookup u).getD {}).availableBalanceUsd +
              ((db.commissions.filter (isDueCommission u now2)).map
                (fun c => c.amountUsd)).sum)
        rw [hbase]
        ring
      · simp only [if_neg h2]
        exact h u
  · intro u
    rcases hmove with heq | hstats
    · rw [heq]
    · show (((refreshPendingCommissions db uid now2).stats.lookup u).getD
          {}).totalEarningsUsd = _
      rw [hstats, lookup_setStats]
      by_cases h2 : u = uid
      · subst h2
        simp only [eq_self_iff_true, if_true, Option.getD_some]
        rfl
      · simp only [if_neg h2]
        rfl

/-- Witness for C4: after the fixture sale run the whole database still
satisfies the balance invariant, instantiated at participant P. -/
theorem balance_invariant_preserved_witness :
    statsInv (getStats (bundleSales db0 0 "f" req0).1 "P") :=
  (balance_invariant_preserved db0 0 "f" req0 "B" "B" "basic" 0
    (fun u => by simp [getStats, db0, statsInv])).2.2.1 "P"

/-! ## C5: hold window and release semantics -/

/-- Settlement rewrites the commissions collection entry by entry: each
document is flipped to "approved" with a release stamp exactly when it
itself matches the due query (beneficiary, pending status, elapsed hold),
and is left untouched otherwise — one entry's dueness never affects
another. -/
lemma refreshPendingCommissions_commissions (db : DB) (uid : String) (now : Nat) :
    (refreshPendingCommissions db uid now).commissions =
      db.commissions.map (fun cc =>
        if isDueCommission uid now cc then
          { cc with status := "approved", releasedAt := some now, updatedAt := now }
        else cc) := by
  by_cases hemp : (db.commissions.filter (isDueCommission uid now)).isEmpty
  · have hnil : db.commissions.filter (isDueCommission uid now) = [] := by
      cases hfl : db.commissions.filter (isDueCommission uid now) with
      | nil => rfl
      | cons a t => rw [hfl] at hemp; simp [List.isEmpty] at hemp
    have hall : ∀ cc ∈ db.commissions, isDueCommission uid now cc = false := by
      intro cc hcc
      by_contra hdue
      rw [Bool.not_eq_false] at hdue
      have hmem : cc ∈ db.commissions.filter (isDueCommission uid now) :=
        List.mem_filter.mpr ⟨hcc, hdue⟩
      rw [hnil] at hmem
      cases hmem
    have hdb : refreshPendingCommissions db uid now = db := by
      unfold refreshPendingCommissions
      simp [hemp]
    rw [hdb]
    have hmapid : ∀ l : List Commission,
        (∀ cc ∈ l, isDueCommission uid now cc = false) →
        l.map (fun cc =>
          if isDueCommission uid now cc then
            { cc with status := "approved", releasedAt := some now, updatedAt := now }
          else cc) = l := by
      intro l
      induction l with
      | nil => intro _; rfl
      | cons a t ih =>
        intro hall2
        simp only [List.map_cons]
        rw [hall2 a (List.mem_cons_self a t)]
        simp only [Bool.false_eq_true, if_false]
        rw [ih (fun cc hcc => hall2 cc (List.mem_cons_of_mem a hcc))]
    exact (hmapid db.commissions hall).symm
  · unfold refreshPendingCommissions
    simp [hemp]

/-- Settlement moves exactly the sum of the due amounts from the
beneficiary's pending to its available balance. -/
lemma refreshPendingCommissions_getStats_self (db : DB) (uid : String) (now : Nat) :
    getStats (refreshPendingCommissions db uid now) uid =
      { getStats db uid with
          pendingBalanceUsd := (getStats db uid).pendingBalanceUsd -
            ((db.commissions.filter (isDueCommission uid now)).map
              (fun cc => cc.amountUsd)).sum,
          availableBalanceUsd := (getStats db uid).availableBalanceUsd +
            ((db.commissions.filter (isDueCommission uid now)).map
              (fun cc => cc.amountUsd)).sum } := by
  by_cases hemp : (db.commissions.filter (isDueCommission uid now)).isEmpty
  · have hnil : db.commissions.filter (isDueCommission uid now) = [] := by
      cases hfl : db.commissions.filter (isDueCommission uid now) with
      | nil => rfl
      | cons a t => rw [hfl] at hemp; simp [List.isEmpty] at hemp
    have hdb : refreshPendingCommissions db uid now = db := by
      unfold refreshPendingCommissions
      simp [hemp]
    rw [hdb, hnil]
    simp only [List.map_nil, List.sum_nil]
    have hzero : ∀ s : Stats,
        ({ s with pendingBalanceUsd := s.pendingBalanceUsd - 0,
                  availableBalanceUsd := s.availableBalanceUsd + 0 } : Stats) = s := by
      intro s; cases s; simp
    exact (hzero (getStats db uid)).symm
  · have hstats : (refreshPendingCommissions db uid now).stats =
        setStats db.stats uid (fun s =>
          { s with
            pendingBalanceUsd := s.pendingBalanceUsd -
              ((db.commissions.filter (isDueCommission uid now)).map
                (fun cc => cc.amountUsd)).sum,
            availableBalanceUsd := s.availableBalanceUsd +
              ((db.commissions.filter (isDueCommission uid now)).map
                (fun cc => cc.amountUsd)).sum }) := by
      unfold refreshPendingCommissions
      simp [hemp]
    show (((refreshPendingCommissions db uid now).stats.lookup uid).getD {}) = _
    rw [hstats, lookup_setStats]
    simp only [eq_self_iff_true, if_true, Option.getD_some]
    rfl

/-- Settlement for one participant leaves every other balance record
untouched. -/
lemma refreshPendingCommissions_getStats_other (db : DB) (uid : String) (now : Nat)
    (u : String) (hu : u ≠ uid) :
    getStats (refreshPendingCommissions db uid now) u = getStats db u := by
  rcases refreshPendingCommissions_stats_cases db uid now with heq | hstats
  · rw [heq]
  · show (((refreshPendingCommissions db uid now).stats.lookup u).getD {}) = _
    rw [hstats, lookup_setStats]
    simp only [if_neg hu]
    rfl

/-- Claim C5: a commission entry created by the handler at time T carries
the deadline `holdUntil = T + REFUND_HOLD_DAYS days` and is created
pending at T.  In any database state, settlement rewrites each entry
according to its own dueness alone and moves exactly the due total from
pending to available (no other balance changes); an entry whose deadline
has not passed is not matched, contributes nothing to the move, and
survives unchanged, while at or after the deadline the entry is matched,
its amount is part of the moved total, it reappears as "approved" with
`releasedAt` stamped, and — being no longer pending — no later settlement
run ever matches or alters it again. -/
theorem commission_hold_release (db : DB) (uid : String) (c : Commission)
    (T now : Nat)
    (hb : c.beneficiaryId = uid) (hst : c.status = "pending")
    (hh : c.holdUntil = holdUntilDate T) :
    holdUntilDate T = T + REFUND_HOLD_DAYS * 24 * 60 * 60 * 1000 ∧
    (∀ (db2 : DB) (f2 : String) (req2 : SaleReq) (c2 : Commission),
        WriteOp.putCommission c2 ∈ (bundleSalesPlan db2 T f2 req2).1.flatten →
        c2.holdUntil = holdUntilDate T ∧ c2.createdAt = T ∧ c2.status = "pending") ∧
    (refreshPendingCommissions db uid now).commissions =
      db.commissions.map (fun cc =>
        if isDueCommission uid now cc then
          { cc with status := "approved", releasedAt := some now, updatedAt := now }
        else cc) ∧
    getStats (refreshPendingCommissions db uid now) uid =
      { getStats db uid with
          pendingBalanceUsd := (getStats db uid).pendingBalanceUsd -
            ((db.commissions.filter (isDueCommission uid now)).map
              (fun cc => cc.amountUsd)).sum,
          availableBalanceUsd := (getStats db uid).availableBalanceUsd +
            ((db.commissions.filter (isDueCommission uid now)).map
              (fun cc => cc.amountUsd)).sum } ∧
    (∀ u, u ≠ uid →
      getStats (refreshPendingCommissions db uid now) u = getStats db u) ∧
    (now < holdUntilDate T →
      isDueCommission uid now c = false ∧
      c ∉ db.commissions.filter (isDueCommission uid now) ∧
      (c ∈ db.commissions →
        c ∈ (refreshPendingCommissions db uid now).commissions)) ∧
    (holdUntilDate T ≤ now →
      isDueCommission uid now c = true ∧
      (c ∈ db.commissions →
        c ∈ db.commissions.filter (isDueCommission uid now) ∧
        { c with status := "approved", releasedAt := some now, updatedAt := now } ∈
          (refreshPendingCommissions db uid now).commissions) ∧
      (∀ now2, isDueCommission uid now2
        { c with status := "approved", releasedAt := some now, updatedAt := now } =
        false) ∧
      (∀ now2,
        { c with status := "approved", releasedAt := some now, updatedAt := now } ∈
          (refreshPendingCommissions db uid now).commissions →
        { c with status := "approved", releasedAt := some now, updatedAt := now } ∈
          (refreshPendingCommissions (refreshPendingCommissions db uid now)
            uid now2).commissions)) := by
  have hmap := refreshPendingCommissions_commissions db uid now
  have happr : (("approved" : String) == "pending") = false := by decide
  refine ⟨rfl, ?_, hmap, refreshPendingCommissions_getStats_self db uid now,
    fun u hu => refreshPendingCommissions_getStats_other db uid now u hu, ?_, ?_⟩
  · intro db2 f2 req2 c2 hmem
    by_cases hv : validSaleReq req2 = true
    · cases hlk : db2.sales.lookup ((req2.externalId).getD f2) with
      | some s0 =>
        rw [bundleSalesPlan_exists db2 T f2 req2 s0 hv hlk] at hmem
        simp at hmem
      | none =>
        cases hr : resolveReferrer db2.users req2.referralCode with
        | none =>
          rw [bundleSalesPlan_noref db2 T f2 req2 hv hlk hr] at hmem
          simp at hmem
        | some r =>
          rw [bundleSalesPlan_recorded db2 T f2 req2 r hv hlk hr] at hmem
          simp only [List.flatten_cons, List.flatten_nil, List.append_nil,
            List.mem_append, List.mem_singleton] at hmem
          rcases hmem with hmem | hmem
          · cases hmem
          · rw [putCommission_mem_batchOps] at hmem
            obtain ⟨cr, _, rfl⟩ := hmem
            exact ⟨rfl, rfl, rfl⟩
    · rw [bundleSalesPlan_invalid db2 T f2 req2 (by rwa [Bool.not_eq_true] at hv)] at hmem
      simp at hmem
  · intro hlt
    have hnotle : ¬ (c.holdUntil ≤ now) := by rw [hh]; omega
    have hfalse : isDueCommission uid now c = false := by
      simp [isDueCommission, hnotle]
    refine ⟨hfalse, ?_, ?_⟩
    · intro hmemf
      have hd := (List.mem_filter.mp hmemf).2
      rw [hfalse] at hd
      cases hd
    · intro hmem
      rw [hmap]
      exact List.mem_map.mpr ⟨c, hmem, by simp [hfalse]⟩
  · intro hge
    have htrue : isDueCommission uid now c = true := by
      simp [isDueCommission, hb, hst, hh, hge]
    have hflip : ∀ now3, isDueCommission uid now3
        { c with status := "approved", releasedAt := some now, updatedAt := now } =
        false := by
      intro now3
      simp [isDueCommission, happr]
    refine ⟨htrue, ?_, hflip, ?_⟩
    · intro hmem
      refine ⟨List.mem_filter.mpr ⟨hmem, htrue⟩, ?_⟩
      rw [hmap]
      exact List.mem_map.mpr ⟨c, hmem, by simp [htrue]⟩
    · intro now2 hmem2
      rw [refreshPendingCommissions_commissions (refreshPendingCommissions db uid now)
        uid now2]
      exact List.mem_map.mpr ⟨_, hmem2, by simp [hflip now2]⟩

/-- Pending commission fixture for P, created at time 0. -/
def comm0 : Commission :=
  { transactionId := "sale-1", beneficiaryId := "P", level := 1, percent := 50,
    amountUsd := 10, status := "pending", holdUntil := holdUntilDate 0,
    createdAt := 0, updatedAt := 0 }

/-- A second pending commission for P created later, whose hold window has
not elapsed when the first one becomes due. -/
def commLate : Commission :=
  { transactionId := "sale-2", beneficiaryId := "P", level := 2, percent := 20,
    amountUsd := 4, status := "pending", holdUntil := holdUntilDate 99,
    createdAt := 99, updatedAt := 99 }

/-- Database fixture with two coexisting pending commissions. -/
def dbHold : DB :=
  { users := [], sales := [], commissions := [comm0, commLate], stats := [],
    activity := [] }

/-- The released form of `comm0`: approved, stamped at its deadline. -/
def comm0Released : Commission :=
  { comm0 with
    status := "approved"
    releasedAt := some (holdUntilDate 0)
    updatedAt := holdUntilDate 0 }

/-- Witness for C5: in a database with two pending commissions, settlement
run exactly at the first one's deadline releases it: the approved, stamped
copy of that entry is in the resulting collection. -/
theorem commission_hold_release_witness :
    comm0Released ∈
      (refreshPendingCommissions dbHold "P" (holdUntilDate 0)).commissions :=
  (((commission_hold_release dbHold "P" comm0 0 (holdUntilDate 0) rfl rfl
      rfl).2.2.2.2.2.2 (le_refl (holdUntilDate 0))).2.1 (by decide)).2
